import Mathlib

/-!
Verification of the go-netty-transport websocket core.

Shallow embedding of the websocket frame codec, mask cipher, frame reader,
message writer, flate wrappers and close-frame control handling, translated
from the Go sources (`websocket/internal/wsutils/frame_reader.go` and the
websocket transport files).  Byte streams are `List Nat` with values below
256, machine integers are `Nat`/`Int` with explicit wrapping where the Go
code truncates.
-/

namespace GoNettyWS

/-- A 4-byte websocket mask, Go `[4]byte`. -/
structure Mask where
  m0 : Nat
  m1 : Nat
  m2 : Nat
  m3 : Nat
deriving DecidableEq, Repr

/-- `mask[i & 3]`: the mask byte used at running offset `i`. -/
def Mask.byteAt (m : Mask) (i : Nat) : Nat :=
  match i % 4 with
  | 0 => m.m0
  | 1 => m.m1
  | 2 => m.m2
  | _ => m.m3

/-- The naive byte-wise cipher: `p[i] ^= mask[(off+i) mod 4]` for all `i`. -/
def naiveCipher (m : Mask) : List Nat → Nat → List Nat
  | [], _ => []
  | b :: rest, off => (b ^^^ m.byteAt off) :: naiveCipher m rest (off + 1)

/-- First loop of `FastCipher` (frame_reader.go:322-325): xor single bytes
while the running offset is not 4-aligned; returns the processed prefix, the
unprocessed remainder, and the updated offset. -/
def fastCipherAlign (m : Mask) : List Nat → Nat → List Nat × List Nat × Nat
  | [], off => ([], [], off)
  | b :: rest, off =>
    if off % 4 = 0 then ([], b :: rest, off)
    else
      let r := fastCipherAlign m rest (off + 1)
      ((b ^^^ m.byteAt off) :: r.1, r.2.1, r.2.2)

/-- Second loop of `FastCipher` (frame_reader.go:326-331): process aligned
4-byte blocks with `mask[0..3]`; returns processed bytes and the remainder
(fewer than 4 bytes). -/
def fastCipherBlocks (m : Mask) : List Nat → List Nat × List Nat
  | b0 :: b1 :: b2 :: b3 :: rest =>
    let r := fastCipherBlocks m rest
    ((b0 ^^^ m.m0) :: (b1 ^^^ m.m1) :: (b2 ^^^ m.m2) :: (b3 ^^^ m.m3) :: r.1, r.2)
  | p => ([], p)

/-- Third loop of `FastCipher` (frame_reader.go:332-335): xor the trailing
bytes using the offset variable carried over from the first loop. -/
def fastCipherTail (m : Mask) : List Nat → Nat → List Nat
  | [], _ => []
  | b :: rest, off => (b ^^^ m.byteAt off) :: fastCipherTail m rest (off + 1)

/-- Model of `FastCipher(p, mask, off)` (frame_reader.go:317-336): empty
fast-out, aligning loop, 4-byte block loop, trailing loop.  The Go function
mutates `p` in place; the model returns the resulting byte list. -/
def fastCipher (p : List Nat) (m : Mask) (off : Nat) : List Nat :=
  match p with
  | [] => []
  | _ =>
    let a := fastCipherAlign m p off
    let b := fastCipherBlocks m a.2.1
    a.1 ++ b.1 ++ fastCipherTail m b.2 a.2.2

theorem Mask.byteAt_mod (m : Mask) (i : Nat) : m.byteAt (i % 4) = m.byteAt i := by
  simp [Mask.byteAt, Nat.mod_mod_of_dvd]

theorem naiveCipher_congr_mod (m : Mask) (p : List Nat) :
    ∀ o₁ o₂, o₁ % 4 = o₂ % 4 → naiveCipher m p o₁ = naiveCipher m p o₂ := by
  induction p with
  | nil => intro _ _ _; rfl
  | cons b rest ih =>
    intro o₁ o₂ h
    have hb : m.byteAt o₁ = m.byteAt o₂ := by
      unfold Mask.byteAt; rw [h]
    simp only [naiveCipher, hb]
    exact congrArg _ (ih _ _ (by omega))

theorem naiveCipher_append (m : Mask) (xs ys : List Nat) (off : Nat) :
    naiveCipher m (xs ++ ys) off =
      naiveCipher m xs off ++ naiveCipher m ys (off + xs.length) := by
  induction xs generalizing off with
  | nil => simp [naiveCipher]
  | cons b rest ih =>
    simp only [List.cons_append, naiveCipher, List.length_cons]
    rw [show rest.append ys = rest ++ ys from rfl, ih,
      show off + (rest.length + 1) = off + 1 + rest.length by omega]

/-- The aligning loop is the naive cipher on the prefix it consumes; it stops
with a 4-aligned offset unless it consumed everything, and the offset variable
tracks the number of bytes consumed. -/
theorem fastCipherAlign_spec (m : Mask) (p : List Nat) : ∀ off,
    (fastCipherAlign m p off).1 ++
        naiveCipher m (fastCipherAlign m p off).2.1 (fastCipherAlign m p off).2.2 =
      naiveCipher m p off ∧
    ((fastCipherAlign m p off).2.1 ≠ [] → (fastCipherAlign m p off).2.2 % 4 = 0) := by
  induction p with
  | nil => intro off; simp [fastCipherAlign, naiveCipher]
  | cons b rest ih =>
    intro off
    by_cases h : off % 4 = 0
    · simp [fastCipherAlign, h]
    · have := ih (off + 1)
      simp only [fastCipherAlign, if_neg h]
      refine ⟨?_, this.2⟩
      simp only [naiveCipher, List.cons_append]
      exact congrArg _ this.1

/-- The block loop is the naive cipher on the prefix it consumes whenever the
offset is 4-aligned, and it consumes a multiple of four bytes. -/
theorem fastCipherBlocks_spec (m : Mask) : ∀ (q : List Nat) (off : Nat),
    off % 4 = 0 →
    (fastCipherBlocks m q).1 ++ naiveCipher m (fastCipherBlocks m q).2 off =
      naiveCipher m q off := by
  intro q
  induction q using fastCipherBlocks.induct m with
  | case1 b0 b1 b2 b3 rest ih =>
    intro off h
    have h0 : m.byteAt off = m.m0 := by unfold Mask.byteAt; rw [h]
    have h1 : m.byteAt (off + 1) = m.m1 := by
      unfold Mask.byteAt; rw [show (off + 1) % 4 = 1 by omega]
    have h2 : m.byteAt (off + 1 + 1) = m.m2 := by
      unfold Mask.byteAt; rw [show (off + 1 + 1) % 4 = 2 by omega]
    have h3 : m.byteAt (off + 1 + 1 + 1) = m.m3 := by
      unfold Mask.byteAt; rw [show (off + 1 + 1 + 1) % 4 = 3 by omega]
    have h4 : (off + 1 + 1 + 1 + 1) % 4 = 0 := by omega
    simp only [fastCipherBlocks, naiveCipher, List.cons_append, h0, h1, h2, h3]
    have := ih (off + 1 + 1 + 1 + 1) h4
    rw [naiveCipher_congr_mod m (fastCipherBlocks m rest).2 off (off + 1 + 1 + 1 + 1)
      (by omega)]
    exact congrArg _ (congrArg _ (congrArg _ (congrArg _ this)))
  | case2 p h1 =>
    intro off _
    simp [fastCipherBlocks]

theorem fastCipherTail_eq_naive (m : Mask) : ∀ (p : List Nat) (off : Nat),
    fastCipherTail m p off = naiveCipher m p off := by
  intro p
  induction p with
  | nil => intro off; rfl
  | cons b rest ih => intro off; simp [fastCipherTail, naiveCipher, ih]

/-- `FastCipher` agrees with the naive byte-wise cipher. -/
theorem fastCipher_eq_naive (p : List Nat) (m : Mask) (off : Nat) :
    fastCipher p m off = naiveCipher m p off := by
  match p with
  | [] => rfl
  | b :: rest =>
    obtain ⟨ha, hrem⟩ := fastCipherAlign_spec m (b :: rest) off
    have hfc : fastCipher (b :: rest) m off =
        (fastCipherAlign m (b :: rest) off).1 ++
        (fastCipherBlocks m (fastCipherAlign m (b :: rest) off).2.1).1 ++
        fastCipherTail m (fastCipherBlocks m (fastCipherAlign m (b :: rest) off).2.1).2
          (fastCipherAlign m (b :: rest) off).2.2 := rfl
    rw [hfc]
    by_cases hq : (fastCipherAlign m (b :: rest) off).2.1 = []
    · rw [hq] at ha ⊢
      simp only [naiveCipher, List.append_nil] at ha
      simpa [fastCipherBlocks, fastCipherTail] using ha
    · have hal := hrem hq
      have hb := fastCipherBlocks_spec m (fastCipherAlign m (b :: rest) off).2.1
        (fastCipherAlign m (b :: rest) off).2.2 hal
      rw [fastCipherTail_eq_naive, List.append_assoc, hb, ha]

theorem naiveCipher_involutive (m : Mask) : ∀ (p : List Nat) (off : Nat),
    naiveCipher m (naiveCipher m p off) off = p := by
  intro p
  induction p with
  | nil => intro off; rfl
  | cons b rest ih =>
    intro off
    simp only [naiveCipher, ih]
    rw [Nat.xor_assoc, Nat.xor_self, Nat.xor_zero]

theorem naiveCipher_get? (m : Mask) : ∀ (p : List Nat) (off i : Nat),
    (naiveCipher m p off)[i]? = p[i]?.map (fun b => b ^^^ m.byteAt (off + i)) := by
  intro p
  induction p with
  | nil => intro off i; rfl
  | cons b rest ih =>
    intro off i
    match i with
    | 0 => simp [naiveCipher]
    | Nat.succ j =>
      simp only [naiveCipher, List.getElem?_cons_succ, ih]
      rw [show off + (j + 1) = off + 1 + j by omega]

/-- C2: `FastCipher(p, mask, off)` equals the naive definition
`p[i] ^= mask[(off+i) mod 4]` at every index, and applying it twice with the
same mask and offset returns `p` unchanged. -/
theorem fastCipher_correct (p : List Nat) (m : Mask) (off : Nat) :
    fastCipher p m off = naiveCipher m p off ∧
    (∀ i : Nat, (fastCipher p m off)[i]? =
      p[i]?.map (fun b => b ^^^ m.byteAt (off + i))) ∧
    fastCipher (fastCipher p m off) m off = p := by
  refine ⟨fastCipher_eq_naive p m off, ?_, ?_⟩
  · intro i
    rw [fastCipher_eq_naive, naiveCipher_get?]
  · rw [fastCipher_eq_naive, fastCipher_eq_naive, naiveCipher_involutive]

/-! ## Frame header codec -/

/-- Error values surfaced by the websocket core.  `closed` embeds
`wsutil.ClosedError{Code, Reason}` (the peer-closed report), `closeCheck`
a `ws.CheckCloseFrameData` validation failure carrying its message. -/
inductive WsErr
  | eof
  | unexpectedEOF
  | headerLengthMSB
  | headerLengthUnexpected
  | frameTooLarge
  | noFrameAdvance
  | invalidUTF8
  | headerCheck
  | requiredFlateReader
  | rsvBits
  | closed (code : Nat) (reason : List Nat)
  | closeCheck (msg : List Nat)
  | badTail
  | codec
deriving DecidableEq, Repr

/-- `ws.Header`: fin, 3-bit rsv, 4-bit opcode, mask flag, 63-bit length,
4-byte mask (meaningful iff `masked`). -/
structure Header where
  fin : Bool
  rsv : Nat
  opCode : Nat
  masked : Bool
  length : Nat
  mask : Mask
deriving DecidableEq, Repr

/-- `io.ReadFull` over a list source: exactly `k` bytes or `EOF` (nothing
available) / `UnexpectedEOF` (partial). -/
def readFull (src : List Nat) (k : Nat) : Except WsErr (List Nat × List Nat) :=
  if k ≤ src.length then .ok (src.take k, src.drop k)
  else if src.length = 0 then .error .eof
  else .error .unexpectedEOF

/-- `binary.BigEndian.Uint16` of the first two bytes. -/
def u16beL (l : List Nat) : Nat := l.getD 0 0 * 256 + l.getD 1 0

/-- `binary.BigEndian.Uint64` of the first eight bytes. -/
def u64beL (l : List Nat) : Nat := (l.take 8).foldl (fun acc b => acc * 256 + b) 0

/-- `binary.BigEndian.PutUint16` (`byte(v >> 8)`, `byte(v)`). -/
def putU16be (v : Nat) : List Nat := [(v >>> 8) % 256, v % 256]

/-- `binary.BigEndian.PutUint64`. -/
def putU64be (v : Nat) : List Nat :=
  [(v >>> 56) % 256, (v >>> 48) % 256, (v >>> 40) % 256, (v >>> 32) % 256,
   (v >>> 24) % 256, (v >>> 16) % 256, (v >>> 8) % 256, v % 256]

/-- `copy(h.Mask[:], bts)` into a zeroed 4-byte array. -/
def maskOf (bts : List Nat) : Mask :=
  ⟨bts.getD 0 0, bts.getD 1 0, bts.getD 2 0, bts.getD 3 0⟩

/-- `ReadHeader` (frame_reader.go:213-277): two header bytes, then a single
`io.ReadFull` of the extension bytes (2 or 8 length bytes when the 7-bit
length field is 126 or 127, plus 4 mask bytes when masked), then length
extraction with the 64-bit MSB check and the mask copy.  Returns the header,
the number of bytes consumed, and the unread remainder of the source.  The
`default` arm of the Go length switch (`ErrHeaderLengthUnexpected`) is kept
although `b1 &&& 127 ≤ 127` makes it unreachable. -/
def readHeader (src : List Nat) : Except WsErr (Header × Nat × List Nat) :=
  match src with
  | b0 :: b1 :: rest =>
    let fin := b0 &&& 128 != 0
    let rsv := (b0 &&& 112) >>> 4
    let op := b0 &&& 15
    let masked := b1 &&& 128 != 0
    let lenField := b1 &&& 127
    let lenExtra : Except WsErr Nat :=
      if lenField < 126 then .ok 0
      else if lenField = 126 then .ok 2
      else if lenField = 127 then .ok 8
      else .error .headerLengthUnexpected
    match lenExtra with
    | .error e => .error e
    | .ok le =>
      let extra := (if masked then 4 else 0) + le
      if extra = 0 then
        .ok (⟨fin, rsv, op, masked, lenField, ⟨0, 0, 0, 0⟩⟩, 2, rest)
      else
        match readFull rest extra with
        | .error e => .error e
        | .ok (bts, rest') =>
          let lengthOrErr : Except WsErr Nat :=
            if lenField = 126 then .ok (u16beL bts)
            else if lenField = 127 then
              if bts.getD 0 0 &&& 128 ≠ 0 then .error .headerLengthMSB
              else .ok (u64beL bts)
            else .ok lenField
          match lengthOrErr with
          | .error e => .error e
          | .ok length =>
            .ok (⟨fin, rsv, op, masked, length,
                  if masked then maskOf (bts.drop le) else ⟨0, 0, 0, 0⟩⟩,
                 2 + extra, rest')
  | [] => .error .eof
  | _ => .error .unexpectedEOF

/-- `websocketTransport.packHeader` (negotiating transport variant): first
byte is opcode with the fin bit (0x80) and the RSV1 bit (0x40, set iff
`compressed`); then the canonical 7/16/64-bit length encoding; on the client
side the mask bit (0x80) is OR-ed into byte 1 and the 4 mask bytes are
appended.  Returns the packed bytes and their count.  (In Go the oversized
length leaves `err` set and the caller discards the buffer; the model returns
the error directly.) -/
def packHeader (op : Nat) (fin compressed clientSide : Bool) (mask : Mask)
    (length : Nat) : Except WsErr (List Nat × Nat) :=
  let b0 := (op ||| (if fin then 128 else 0)) ||| (if compressed then 64 else 0)
  let core : Except WsErr (List Nat × Nat) :=
    if length ≤ 125 then .ok ([b0, length], 2)
    else if length ≤ 65535 then .ok ([b0, 126] ++ putU16be length, 4)
    else if length ≤ 2 ^ 63 - 1 then .ok ([b0, 127] ++ putU64be length, 10)
    else .error .headerLengthUnexpected
  match core with
  | .error e => .error e
  | .ok (c0 :: c1 :: cr, n) =>
    if clientSide then
      .ok (c0 :: (c1 ||| 128) :: cr ++ [mask.m0, mask.m1, mask.m2, mask.m3], n + 4)
    else .ok (c0 :: c1 :: cr, n)
  | .ok (bts, n) => .ok (bts, n)

theorem readFull_exact (xs ys : List Nat) :
    readFull (xs ++ ys) xs.length = .ok (xs, ys) := by
  simp [readFull]

/-- C8: when the 7-bit length field is 126, the decoded length is the next
two bytes as a big-endian u16; when it is 127 the decoded length is the next
eight bytes as a big-endian u64, and `ReadHeader` returns `HeaderLengthMSB`
exactly when the most significant bit of those eight bytes is set. -/
theorem readHeader_extended_lengths (b0 b1 : Nat) (rest : List Nat)
    (hr0 : rest.getD 0 0 < 256) :
    (b1 &&& 127 = 126 → (if b1 &&& 128 != 0 then 4 else 0) + 2 ≤ rest.length →
      ∃ h rest', readHeader (b0 :: b1 :: rest) = .ok (h, 2 + ((if b1 &&& 128 != 0 then 4 else 0) + 2), rest') ∧
        h.length = rest.getD 0 0 * 256 + rest.getD 1 0) ∧
    (b1 &&& 127 = 127 → (if b1 &&& 128 != 0 then 4 else 0) + 8 ≤ rest.length →
      ((readHeader (b0 :: b1 :: rest) = .error .headerLengthMSB ↔ 128 ≤ rest.getD 0 0) ∧
       (rest.getD 0 0 < 128 →
        ∃ h rest', readHeader (b0 :: b1 :: rest) = .ok (h, 2 + ((if b1 &&& 128 != 0 then 4 else 0) + 8), rest') ∧
          h.length =
            ((((((rest.getD 0 0 * 256 + rest.getD 1 0) * 256 + rest.getD 2 0) * 256 +
              rest.getD 3 0) * 256 + rest.getD 4 0) * 256 + rest.getD 5 0) * 256 +
              rest.getD 6 0) * 256 + rest.getD 7 0))) := by
  have hbit : ∀ x : Nat, x < 256 → ((x &&& 128 = 0) ↔ x < 128) := by
    intro x hx; interval_cases x <;> decide
  constructor
  · intro hlf hav
    cases hm : (b1 &&& 128 != 0) with
    | false =>
      simp only [hm, if_neg Bool.false_ne_true] at hav ⊢
      refine ⟨⟨b0 &&& 128 != 0, (b0 &&& 112) >>> 4, b0 &&& 15, false,
          u16beL (rest.take 2), ⟨0, 0, 0, 0⟩⟩, rest.drop 2, ?_, ?_⟩
      · simp only [readHeader, hlf, hm, readFull]
        norm_num [hav]
      · simp [u16beL, List.getD, List.getElem?_take]
    | true =>
      simp only [hm] at hav ⊢
      norm_num at hav
      refine ⟨⟨b0 &&& 128 != 0, (b0 &&& 112) >>> 4, b0 &&& 15, true,
          u16beL (rest.take 6), maskOf ((rest.take 6).drop 2)⟩, rest.drop 6, ?_, ?_⟩
      · simp only [readHeader, hlf, hm, readFull]
        norm_num [hav]
      · simp [u16beL, List.getD, List.getElem?_take]
  · intro hlf hav
    have hlen0 : 0 < rest.length := by
      cases hm : (b1 &&& 128 != 0) <;> simp [hm] at hav <;> omega
    have h0 : rest.getD 0 0 = getElem rest 0 hlen0 := by
      simp [List.getD, List.getElem?_eq_getElem hlen0]
    rw [h0] at hr0
    constructor
    · rw [h0]
      by_cases hc : getElem rest 0 hlen0 &&& 128 = 0
      · have hb1 : getElem rest 0 hlen0 < 128 := (hbit _ hr0).1 hc
        have hb2 : ¬ (128 ≤ getElem rest 0 hlen0) := by omega
        cases hm : (b1 &&& 128 != 0) with
        | false =>
          simp only [hm, if_neg Bool.false_ne_true] at hav
          simp only [readHeader, hlf, hm, readFull]
          norm_num [hav, hc]
          simp [hb2]
        | true =>
          simp only [hm] at hav
          norm_num at hav
          simp only [readHeader, hlf, hm, readFull]
          norm_num [hav, hc]
          simp [hb2]
      · have hb1 : 128 ≤ getElem rest 0 hlen0 := by
          rcases Nat.lt_or_ge (getElem rest 0 hlen0) 128 with h | h
          · exact absurd ((hbit _ hr0).2 h) hc
          · exact h
        cases hm : (b1 &&& 128 != 0) with
        | false =>
          simp only [hm, if_neg Bool.false_ne_true] at hav
          simp only [readHeader, hlf, hm, readFull]
          norm_num [hav, hc]
          simp [hb1]
        | true =>
          simp only [hm] at hav
          norm_num at hav
          simp only [readHeader, hlf, hm, readFull]
          norm_num [hav, hc]
          simp [hb1]
    · intro hlt
      rw [h0] at hlt
      have hc : getElem rest 0 hlen0 &&& 128 = 0 := (hbit _ hr0).2 hlt
      have hd : ∀ k, 8 ≤ k → k ≤ rest.length → u64beL (rest.take k) =
          ((((((rest.getD 0 0 * 256 + rest.getD 1 0) * 256 + rest.getD 2 0) * 256 +
            rest.getD 3 0) * 256 + rest.getD 4 0) * 256 + rest.getD 5 0) * 256 +
            rest.getD 6 0) * 256 + rest.getD 7 0 := by
        intro k hk hkl
        rcases rest with _ | ⟨r0, _ | ⟨r1, _ | ⟨r2, _ | ⟨r3, _ | ⟨r4, _ | ⟨r5, _ | ⟨r6, _ | ⟨r7, t⟩⟩⟩⟩⟩⟩⟩⟩ <;>
          simp_all <;> try omega
        obtain ⟨k, rfl⟩ : ∃ j, k = 8 + j := ⟨k - 8, by omega⟩
        simp [u64beL, List.take_cons, List.getD]
      cases hm : (b1 &&& 128 != 0) with
      | false =>
        simp only [hm, if_neg Bool.false_ne_true] at hav ⊢
        refine ⟨⟨b0 &&& 128 != 0, (b0 &&& 112) >>> 4, b0 &&& 15, false,
            u64beL (rest.take 8), ⟨0, 0, 0, 0⟩⟩, rest.drop 8, ?_, ?_⟩
        · simp only [readHeader, hlf, hm, readFull]
          norm_num [hav, hc]
        · exact hd 8 (by omega) hav
      | true =>
        simp only [hm] at hav ⊢
        norm_num at hav
        refine ⟨⟨b0 &&& 128 != 0, (b0 &&& 112) >>> 4, b0 &&& 15, true,
            u64beL (rest.take 12), maskOf ((rest.take 12).drop 8)⟩, rest.drop 12, ?_, ?_⟩
        · simp only [readHeader, hlf, hm, readFull]
          norm_num [hav, hc]
        · show u64beL (rest.take 12) = _
          rw [hd 12 (by omega) hav]

theorem byte0_bits (op : Nat) (hop : op < 16) (f c : Bool) :
    (((op ||| (if f then 128 else 0)) ||| (if c then 64 else 0)) &&& 128 != 0) = f ∧
    ((((op ||| (if f then 128 else 0)) ||| (if c then 64 else 0)) &&& 112) >>> 4)
      = (if c then 4 else 0) ∧
    (((op ||| (if f then 128 else 0)) ||| (if c then 64 else 0)) &&& 15) = op := by
  interval_cases op <;> cases f <;> cases c <;> decide

theorem byte1_len7_bits (len : Nat) (hlen : len ≤ 125) :
    ((len &&& 128 != 0) = false ∧ len &&& 127 = len) ∧
    (((len ||| 128) &&& 128 != 0) = true ∧ (len ||| 128) &&& 127 = len) := by
  interval_cases len <;> decide

theorem u16_digits_roundtrip (v : Nat) (hv : v ≤ 65535) :
    (v >>> 8) % 256 * 256 + v % 256 = v := by
  rw [Nat.shiftRight_eq_div_pow]; omega

theorem msb_clear (x : Nat) (hx : x < 128) : x &&& 128 = 0 := by
  interval_cases x <;> decide

theorem u64beL_putU64be (v : Nat) (rest : List Nat) (hv : v < 2 ^ 64) :
    u64beL (putU64be v ++ rest) = v := by
  simp only [putU64be, List.cons_append, List.nil_append, u64beL, List.take_succ_cons,
    List.take_zero, List.foldl_cons, List.foldl_nil, Nat.shiftRight_eq_div_pow]
  omega

theorem roundtrip_len7_server (op : Nat) (fin compressed : Bool) (mask : Mask)
    (length : Nat) (tail : List Nat) (hop : op < 16) (hlen : length ≤ 125) :
    packHeader op fin compressed false mask length =
      .ok ([(op ||| (if fin then 128 else 0)) ||| (if compressed then 64 else 0),
            length], 2) ∧
    readHeader (((op ||| (if fin then 128 else 0)) ||| (if compressed then 64 else 0)) ::
        length :: tail) =
      .ok (⟨fin, if compressed then 4 else 0, op, false, length, ⟨0, 0, 0, 0⟩⟩, 2, tail) := by
  obtain ⟨hb0m, hb0r, hb0o⟩ := byte0_bits op hop fin compressed
  obtain ⟨⟨hs1, hs2⟩, _⟩ := byte1_len7_bits length hlen
  have h7 : length < 126 := by omega
  refine ⟨by simp [packHeader, hlen], ?_⟩
  simp only [readHeader, hs1, hs2, hb0m, hb0r, hb0o]
  norm_num [h7]

theorem roundtrip_len7_client (op : Nat) (fin compressed : Bool) (mask : Mask)
    (length : Nat) (tail : List Nat) (hop : op < 16) (hlen : length ≤ 125) :
    packHeader op fin compressed true mask length =
      .ok ([(op ||| (if fin then 128 else 0)) ||| (if compressed then 64 else 0),
            length ||| 128, mask.m0, mask.m1, mask.m2, mask.m3], 6) ∧
    readHeader (((op ||| (if fin then 128 else 0)) ||| (if compressed then 64 else 0)) ::
        (length ||| 128) :: mask.m0 :: mask.m1 :: mask.m2 :: mask.m3 :: tail) =
      .ok (⟨fin, if compressed then 4 else 0, op, true, length, mask⟩, 6, tail) := by
  obtain ⟨hb0m, hb0r, hb0o⟩ := byte0_bits op hop fin compressed
  obtain ⟨_, hc1, hc2⟩ := byte1_len7_bits length hlen
  have h7 : length < 126 := by omega
  have hne126 : length ≠ 126 := by omega
  have hne127 : length ≠ 127 := by omega
  refine ⟨by simp [packHeader, hlen], ?_⟩
  have hrf := readFull_exact [mask.m0, mask.m1, mask.m2, mask.m3] tail
  simp only [List.length_cons, List.length_nil, List.cons_append,
    List.nil_append] at hrf
  norm_num at hrf
  simp only [readHeader, hc1, hc2, hb0m, hb0r, hb0o]
  norm_num [h7, hne126, hne127, hrf, maskOf, List.getD]

theorem roundtrip_len16_server (op : Nat) (fin compressed : Bool) (mask : Mask)
    (length : Nat) (tail : List Nat) (hop : op < 16)
    (hlo : 126 ≤ length) (hhi : length ≤ 65535) :
    packHeader op fin compressed false mask length =
      .ok ([(op ||| (if fin then 128 else 0)) ||| (if compressed then 64 else 0),
            126, (length >>> 8) % 256, length % 256], 4) ∧
    readHeader (((op ||| (if fin then 128 else 0)) ||| (if compressed then 64 else 0)) ::
        126 :: (length >>> 8) % 256 :: length % 256 :: tail) =
      .ok (⟨fin, if compressed then 4 else 0, op, false, length, ⟨0, 0, 0, 0⟩⟩, 4, tail) := by
  obtain ⟨hb0m, hb0r, hb0o⟩ := byte0_bits op hop fin compressed
  have hn125 : ¬ (length ≤ 125) := by omega
  have hu16 : (length >>> 8) % 256 * 256 + length % 256 = length :=
    u16_digits_roundtrip length hhi
  have e1 : (126 : Nat) &&& 127 = 126 := by decide
  have e2 : (126 : Nat) &&& 128 = 0 := by decide
  refine ⟨by simp [packHeader, hn125, hhi, putU16be], ?_⟩
  have hrf := readFull_exact [(length >>> 8) % 256, length % 256] tail
  simp only [List.length_cons, List.length_nil, List.cons_append,
    List.nil_append] at hrf
  norm_num at hrf
  simp only [readHeader, hb0m, hb0r, hb0o]
  norm_num [e1, e2, hrf, u16beL, List.getD]
  exact hu16

theorem roundtrip_len16_client (op : Nat) (fin compressed : Bool) (mask : Mask)
    (length : Nat) (tail : List Nat) (hop : op < 16)
    (hlo : 126 ≤ length) (hhi : length ≤ 65535) :
    packHeader op fin compressed true mask length =
      .ok ([(op ||| (if fin then 128 else 0)) ||| (if compressed then 64 else 0),
            254, (length >>> 8) % 256, length % 256,
            mask.m0, mask.m1, mask.m2, mask.m3], 8) ∧
    readHeader (((op ||| (if fin then 128 else 0)) ||| (if compressed then 64 else 0)) ::
        254 :: (length >>> 8) % 256 :: length % 256 ::
        mask.m0 :: mask.m1 :: mask.m2 :: mask.m3 :: tail) =
      .ok (⟨fin, if compressed then 4 else 0, op, true, length, mask⟩, 8, tail) := by
  obtain ⟨hb0m, hb0r, hb0o⟩ := byte0_bits op hop fin compressed
  have hn125 : ¬ (length ≤ 125) := by omega
  have hu16 : (length >>> 8) % 256 * 256 + length % 256 = length :=
    u16_digits_roundtrip length hhi
  have e3 : (254 : Nat) &&& 127 = 126 := by decide
  have e4 : (254 : Nat) &&& 128 = 128 := by decide
  refine ⟨by simp [packHeader, hn125, hhi, putU16be], ?_⟩
  have hrf := readFull_exact [(length >>> 8) % 256, length % 256,
    mask.m0, mask.m1, mask.m2, mask.m3] tail
  simp only [List.length_cons, List.length_nil, List.cons_append,
    List.nil_append] at hrf
  norm_num at hrf
  simp only [readHeader, hb0m, hb0r, hb0o]
  norm_num [e3, e4, hrf, u16beL, maskOf, List.getD]
  exact hu16

theorem readHeader_len64_digits_server (b0 d0 d1 d2 d3 d4 d5 d6 d7 : Nat)
    (tail : List Nat) (hd0 : d0 &&& 128 = 0) :
    readHeader (b0 :: 127 :: d0 :: d1 :: d2 :: d3 :: d4 :: d5 :: d6 :: d7 :: tail) =
      .ok (⟨b0 &&& 128 != 0, (b0 &&& 112) >>> 4, b0 &&& 15, false,
            ((((((d0 * 256 + d1) * 256 + d2) * 256 + d3) * 256 + d4) * 256 + d5) * 256 +
              d6) * 256 + d7, ⟨0, 0, 0, 0⟩⟩, 10, tail) := by
  have e5 : (127 : Nat) &&& 127 = 127 := by decide
  have e6 : (127 : Nat) &&& 128 = 0 := by decide
  have hrf := readFull_exact [d0, d1, d2, d3, d4, d5, d6, d7] tail
  simp only [List.length_cons, List.length_nil, List.cons_append,
    List.nil_append] at hrf
  norm_num at hrf
  simp only [readHeader]
  norm_num [e5, e6, hrf, hd0, u64beL, List.getD]

set_option maxRecDepth 8192 in
set_option maxHeartbeats 2000000 in
theorem readHeader_len64_digits_client (b0 d0 d1 d2 d3 d4 d5 d6 d7 : Nat)
    (mask : Mask) (tail : List Nat) (hd0 : d0 &&& 128 = 0) :
    readHeader (b0 :: 255 :: d0 :: d1 :: d2 :: d3 :: d4 :: d5 :: d6 :: d7 ::
        mask.m0 :: mask.m1 :: mask.m2 :: mask.m3 :: tail) =
      .ok (⟨b0 &&& 128 != 0, (b0 &&& 112) >>> 4, b0 &&& 15, true,
            ((((((d0 * 256 + d1) * 256 + d2) * 256 + d3) * 256 + d4) * 256 + d5) * 256 +
              d6) * 256 + d7, mask⟩, 14, tail) := by
  have e7 : (255 : Nat) &&& 127 = 127 := by decide
  have e8 : (255 : Nat) &&& 128 = 128 := by decide
  have hrf := readFull_exact [d0, d1, d2, d3, d4, d5, d6, d7,
    mask.m0, mask.m1, mask.m2, mask.m3] tail
  simp only [List.length_cons, List.length_nil, List.cons_append,
    List.nil_append] at hrf
  norm_num at hrf
  simp only [readHeader]
  norm_num [e7, e8, hrf, hd0, u64beL, maskOf, List.getD]

theorem u64_digits_value (length : Nat) (h : length < 2 ^ 64) :
    (((((((length >>> 56) % 256 * 256 + (length >>> 48) % 256) * 256 +
      (length >>> 40) % 256) * 256 + (length >>> 32) % 256) * 256 +
      (length >>> 24) % 256) * 256 + (length >>> 16) % 256) * 256 +
      (length >>> 8) % 256) * 256 + length % 256 = length := by
  simp only [Nat.shiftRight_eq_div_pow]
  omega

theorem roundtrip_len64_server (op : Nat) (fin compressed : Bool) (mask : Mask)
    (length : Nat) (tail : List Nat) (hop : op < 16)
    (hlo : 65536 ≤ length) (hhi : length < 2 ^ 63) :
    packHeader op fin compressed false mask length =
      .ok ([(op ||| (if fin then 128 else 0)) ||| (if compressed then 64 else 0),
            127] ++ putU64be length, 10) ∧
    readHeader (((op ||| (if fin then 128 else 0)) ||| (if compressed then 64 else 0)) ::
        127 :: (putU64be length ++ tail)) =
      .ok (⟨fin, if compressed then 4 else 0, op, false, length, ⟨0, 0, 0, 0⟩⟩, 10, tail) := by
  obtain ⟨hb0m, hb0r, hb0o⟩ := byte0_bits op hop fin compressed
  have hn125 : ¬ (length ≤ 125) := by omega
  have hn16 : ¬ (length ≤ 65535) := by omega
  have h63le : length ≤ 9223372036854775807 := by omega
  have hmsb : (length >>> 56) % 256 &&& 128 = 0 := by
    apply msb_clear
    rw [Nat.shiftRight_eq_div_pow]
    omega
  refine ⟨by simp [packHeader, hn125, hn16, h63le], ?_⟩
  have hdig := readHeader_len64_digits_server
    ((op ||| (if fin then 128 else 0)) ||| (if compressed then 64 else 0))
    ((length >>> 56) % 256) ((length >>> 48) % 256) ((length >>> 40) % 256)
    ((length >>> 32) % 256) ((length >>> 24) % 256) ((length >>> 16) % 256)
    ((length >>> 8) % 256) (length % 256) tail hmsb
  rw [show putU64be length ++ tail =
      (length >>> 56) % 256 :: (length >>> 48) % 256 :: (length >>> 40) % 256 ::
      (length >>> 32) % 256 :: (length >>> 24) % 256 :: (length >>> 16) % 256 ::
      (length >>> 8) % 256 :: length % 256 :: tail from rfl]
  rw [hdig, hb0m, hb0r, hb0o, u64_digits_value length (by omega)]

set_option maxRecDepth 4096 in
theorem roundtrip_len64_client (op : Nat) (fin compressed : Bool) (mask : Mask)
    (length : Nat) (tail : List Nat) (hop : op < 16)
    (hlo : 65536 ≤ length) (hhi : length < 2 ^ 63) :
    packHeader op fin compressed true mask length =
      .ok ([(op ||| (if fin then 128 else 0)) ||| (if compressed then 64 else 0),
            255] ++ putU64be length ++ [mask.m0, mask.m1, mask.m2, mask.m3], 14) ∧
    readHeader (((op ||| (if fin then 128 else 0)) ||| (if compressed then 64 else 0)) ::
        255 :: (putU64be length ++ [mask.m0, mask.m1, mask.m2, mask.m3] ++ tail)) =
      .ok (⟨fin, if compressed then 4 else 0, op, true, length, mask⟩, 14, tail) := by
  obtain ⟨hb0m, hb0r, hb0o⟩ := byte0_bits op hop fin compressed
  have hn125 : ¬ (length ≤ 125) := by omega
  have hn16 : ¬ (length ≤ 65535) := by omega
  have h63le : length ≤ 9223372036854775807 := by omega
  have hmsb : (length >>> 56) % 256 &&& 128 = 0 := by
    apply msb_clear
    rw [Nat.shiftRight_eq_div_pow]
    omega
  refine ⟨by simp [packHeader, hn125, hn16, h63le], ?_⟩
  have hdig := readHeader_len64_digits_client
    ((op ||| (if fin then 128 else 0)) ||| (if compressed then 64 else 0))
    ((length >>> 56) % 256) ((length >>> 48) % 256) ((length >>> 40) % 256)
    ((length >>> 32) % 256) ((length >>> 24) % 256) ((length >>> 16) % 256)
    ((length >>> 8) % 256) (length % 256) mask tail hmsb
  rw [show putU64be length ++ [mask.m0, mask.m1, mask.m2, mask.m3] ++ tail =
      (length >>> 56) % 256 :: (length >>> 48) % 256 :: (length >>> 40) % 256 ::
      (length >>> 32) % 256 :: (length >>> 24) % 256 :: (length >>> 16) % 256 ::
      (length >>> 8) % 256 :: length % 256 ::
      mask.m0 :: mask.m1 :: mask.m2 :: mask.m3 :: tail from rfl]
  rw [hdig, hb0m, hb0r, hb0o, u64_digits_value length (by omega)]

/-- C3: decoding the bytes produced by the header packer yields the header
back (fin, RSV1 from `compressed`, opcode, mask flag and mask bytes on the
client side, exact length), and the decoder consumes exactly the 2 to 14
bytes the packer wrote. -/
theorem packHeader_readHeader_roundtrip (op : Nat) (fin compressed clientSide : Bool)
    (mask : Mask) (length : Nat) (tail : List Nat)
    (hop : op < 16) (hlen : length < 2 ^ 63)
    (hctl : 8 ≤ op → length ≤ 125) :
    ∃ bts n, packHeader op fin compressed clientSide mask length = .ok (bts, n) ∧
      readHeader (bts ++ tail) =
        .ok (⟨fin, if compressed then 4 else 0, op, clientSide, length,
              if clientSide then mask else ⟨0, 0, 0, 0⟩⟩, n, tail) ∧
      2 ≤ n ∧ n ≤ 14 := by
  rcases Nat.lt_or_ge length 126 with h7 | h7
  · cases clientSide with
    | false =>
      obtain ⟨hp, hr⟩ := roundtrip_len7_server op fin compressed mask length tail hop
        (by omega)
      exact ⟨_, 2, hp, by simpa using hr, by omega, by omega⟩
    | true =>
      obtain ⟨hp, hr⟩ := roundtrip_len7_client op fin compressed mask length tail hop
        (by omega)
      exact ⟨_, 6, hp, by simpa using hr, by omega, by omega⟩
  · rcases Nat.lt_or_ge length 65536 with h16 | h16
    · cases clientSide with
      | false =>
        obtain ⟨hp, hr⟩ := roundtrip_len16_server op fin compressed mask length tail hop
          (by omega) (by omega)
        exact ⟨_, 4, hp, by simpa using hr, by omega, by omega⟩
      | true =>
        obtain ⟨hp, hr⟩ := roundtrip_len16_client op fin compressed mask length tail hop
          (by omega) (by omega)
        exact ⟨_, 8, hp, by simpa using hr, by omega, by omega⟩
    · cases clientSide with
      | false =>
        obtain ⟨hp, hr⟩ := roundtrip_len64_server op fin compressed mask length tail hop
          (by omega) hlen
        refine ⟨_, 10, hp, ?_, by omega, by omega⟩
        simpa [List.cons_append, List.append_assoc] using hr
      | true =>
        obtain ⟨hp, hr⟩ := roundtrip_len64_client op fin compressed mask length tail hop
          (by omega) hlen
        refine ⟨_, 14, hp, ?_, by omega, by omega⟩
        simpa [List.cons_append, List.append_assoc] using hr


/-- Witness for C3: a concrete client-side text header of length 300
round-trips through the packer and decoder. -/
theorem packHeader_readHeader_roundtrip_witness :
    ∃ bts n, packHeader 1 true false true ⟨1, 2, 3, 4⟩ 300 = .ok (bts, n) ∧
      readHeader (bts ++ [9]) =
        .ok (⟨true, 0, 1, true, 300, ⟨1, 2, 3, 4⟩⟩, n, [9]) ∧ 2 ≤ n ∧ n ≤ 14 := by
  simpa using packHeader_readHeader_roundtrip 1 true false true ⟨1, 2, 3, 4⟩ 300 [9]
    (by norm_num) (by norm_num) (by omega)

/-- Witness for C8: a concrete unmasked header with length field 127 decodes
the 8-byte big-endian extended length 261. -/
theorem readHeader_extended_lengths_witness :
    ∃ h rest', readHeader (130 :: 127 :: [0, 0, 0, 0, 0, 0, 1, 5]) = .ok (h, 10, rest') ∧
      h.length = 261 := by
  have hmain := (readHeader_extended_lengths 130 127 [0, 0, 0, 0, 0, 0, 1, 5]
    (by norm_num)).2 (by decide) (by decide)
  obtain ⟨h, rest', heq, hlen⟩ := hmain.2 (by norm_num)
  exact ⟨h, rest', by simpa using heq, by simpa using hlen⟩

/-! ## Frame reader (wsutils.FrameReader) -/

/-- `OpCode.IsControl()`: control opcodes have bit 3 set. -/
def isControlOp (op : Nat) : Bool := op &&& 8 != 0

/-- State of a `wsutils.FrameReader` together with the unread bytes of its
`Source`.  `frameActive` models `r.frame != nil`, `rawN` the remaining
`r.raw.N` of the current frame, `fragmented` the `ws.StateFragmented` bit.
The fields `utf8Valid`/`utf8Accepted` carry the state of the interposed
`wsutil.UTF8Reader` (an external collaborator) at the moment the frame is
exhausted. -/
structure FrameReaderSt where
  source : List Nat
  frameActive : Bool
  rawN : Nat
  fragmented : Bool
  checkUTF8 : Bool
  skipHeaderCheck : Bool
  maxFrameSize : Nat
  opCode : Nat
  utf8Active : Bool
  utf8Valid : Bool
  utf8Accepted : Nat
deriving DecidableEq, Repr

/-- External collaborators of `FrameReader.NextFrame`: `ws.CheckHeader`,
`wsflate.IsCompressed`, the presence of a `GetFlateReader` hook, and the
`OnIntermediate` control-frame callback (its own payload consumption is
subsumed by the `io.Copy` discard that follows it in the Go code). -/
structure NextFrameExt where
  check : Header → Option WsErr
  isCompressed : Header → Except WsErr Bool
  hasFlateReader : Bool
  onIntermediate : Option (Header → Option WsErr)

/-- `resetFragment` (frame_reader.go:177-184): clear the limited reader and
the frame, keep message-level state. -/
def FrameReaderSt.resetFragment (r : FrameReaderSt) : FrameReaderSt :=
  { r with rawN := 0, frameActive := false }

/-- `reset` (frame_reader.go:186-200): clear the limited reader, the frame,
the UTF-8 validator and the message opcode, releasing any flate reader. -/
def FrameReaderSt.reset (r : FrameReaderSt) : FrameReaderSt :=
  { r with rawN := 0, frameActive := false, utf8Active := false,
           utf8Valid := true, utf8Accepted := 0, opCode := 0 }

/-- One `Read(p)` call on the current frame: the `io.LimitedReader` over the
source (frame_reader.go:113-114); the interposed cipher reader preserves
counts and errors, so the count/error behaviour modelled here is that of the
uncompressed frame pipeline.  `pcap = len(p)`. -/
def limitedRead (r : FrameReaderSt) (pcap : Nat) :
    (Nat × Option WsErr) × FrameReaderSt :=
  if r.rawN = 0 then ((0, some .eof), r)
  else
    let k := min pcap r.rawN
    if k = 0 then ((0, none), r)
    else if r.source.isEmpty then ((0, some .eof), r)
    else
      let n := min k r.source.length
      ((n, none), { r with source := r.source.drop n, rawN := r.rawN - n })

/-- `FrameReader.Read` body after the frame is established
(frame_reader.go:57-78): read from the frame, early-return while the frame
has bytes left, then the end-of-frame switch: UnexpectedEOF when payload
bytes remain, silent fragment reset while fragmented, InvalidUTF8 when the
checker rejects the completed text message, otherwise reset and EOF. -/
def frameRead (r : FrameReaderSt) (pcap : Nat) :
    (Nat × Option WsErr) × FrameReaderSt :=
  let res := limitedRead r pcap
  let n := res.1.1
  let err := res.1.2
  let r1 := res.2
  if err ≠ none ∧ err ≠ some .eof then ((n, err), r1)
  else if err = none ∧ r1.rawN ≠ 0 then ((n, none), r1)
  else
    if r1.rawN ≠ 0 then ((n, some .unexpectedEOF), r1)
    else if r1.fragmented then ((n, none), r1.resetFragment)
    else if r1.checkUTF8 ∧ ¬ r1.utf8Valid then ((r1.utf8Accepted, some .invalidUTF8), r1)
    else ((n, some .eof), r1.reset)

/-- `FrameReader.NextFrame` (frame_reader.go:98-173) for the configuration
used by the transports (empty `Extensions`, `OnContinuation = nil`): read and
check the header, enforce `MaxFrameSize` before arming the limited reader,
dispatch `wsflate.IsCompressed`, handle control frames inside a fragmented
sequence via `OnIntermediate` plus a payload discard, otherwise record the
message opcode, interpose UTF-8 checking for text, activate the frame and
update the fragmented bit from `fin`.  On a header-read error the source
position is left as-is (no claim depends on it). -/
def nextFrame (ext : NextFrameExt) (r : FrameReaderSt) :
    Except WsErr Header × FrameReaderSt :=
  match readHeader r.source with
  | .error e =>
    (.error (if e = .eof ∧ r.fragmented then WsErr.unexpectedEOF else e), r)
  | .ok (hdr, _, src') =>
    match (if r.skipHeaderCheck then none else ext.check hdr) with
    | some e => (.error e, { r with source := src' })
    | none =>
      if 0 < r.maxFrameSize ∧ r.maxFrameSize < hdr.length then
        (.error .frameTooLarge, { r with source := src' })
      else
        let r1 := { r with source := src', rawN := hdr.length }
        match ext.isCompressed hdr with
        | .error e => (.error e, r1)
        | .ok compressed =>
          if compressed ∧ ¬ ext.hasFlateReader then (.error .requiredFlateReader, r1)
          else
            if r1.fragmented ∧ isControlOp hdr.opCode then
              match (match ext.onIntermediate with
                     | some cb => cb hdr
                     | none => none) with
              | some e => (.error e, r1)
              | none =>
                let n := min r1.rawN r1.source.length
                (.ok hdr, { r1 with source := r1.source.drop n, rawN := r1.rawN - n })
            else
              let r2 := if r1.fragmented then r1 else { r1 with opCode := hdr.opCode }
              let r3 := if r2.checkUTF8 ∧ (hdr.opCode = 1 ∨ (r2.fragmented ∧ r2.opCode = 1))
                        then { r2 with utf8Active := true } else r2
              let r4 := { r3 with frameActive := true }
              let r5 := if hdr.fin then { r4 with fragmented := false }
                        else { r4 with fragmented := true }
              (.ok hdr, r5)

/-- `FrameReader.Read` (frame_reader.go:44-79): with no current frame, error
with ErrNoFrameAdvance unless a fragmented message is in progress, in which
case advance to the next frame first; then read from the frame. -/
def wsRead (ext : NextFrameExt) (r : FrameReaderSt) (pcap : Nat) :
    (Nat × Option WsErr) × FrameReaderSt :=
  if r.frameActive then frameRead r pcap
  else if ¬ r.fragmented then ((0, some .noFrameAdvance), r)
  else
    match nextFrame ext r with
    | (.error e, r') => ((0, some e), r')
    | (.ok _, r') =>
      if ¬ r'.frameActive then ((0, none), r')
      else frameRead r' pcap

/-- C4: a `Read` call that exhausts the current frame's byte stream is
resolved by the source's case analysis: payload bytes left in the limited
reader with the stream ended give UnexpectedEOF; a non-final fragment
returns the bytes read with no error and stays in-message; a completed text
message failing the UTF-8 check gives InvalidUTF8; otherwise message state
is cleared and EOF marks the end of the message. -/
theorem frameRead_exhaustion (ext : NextFrameExt) (r : FrameReaderSt) (pcap : Nat)
    (hact : r.frameActive = true) :
    (r.rawN ≠ 0 → 0 < pcap → r.source = [] →
      wsRead ext r pcap = ((0, some .unexpectedEOF), r)) ∧
    (r.rawN ≤ pcap → r.rawN ≤ r.source.length → r.fragmented = true →
      wsRead ext r pcap =
        ((r.rawN, none),
         { r with source := r.source.drop r.rawN, rawN := 0, frameActive := false })) ∧
    (r.rawN ≤ pcap → r.rawN ≤ r.source.length → r.fragmented = false →
      r.checkUTF8 = true → r.utf8Valid = false →
      wsRead ext r pcap =
        ((r.utf8Accepted, some .invalidUTF8),
         { r with source := r.source.drop r.rawN, rawN := 0 })) ∧
    (r.rawN ≤ pcap → r.rawN ≤ r.source.length → r.fragmented = false →
      (r.checkUTF8 = false ∨ r.utf8Valid = true) →
      wsRead ext r pcap =
        ((r.rawN, some .eof),
         FrameReaderSt.reset { r with source := r.source.drop r.rawN, rawN := 0 })) := by
  obtain ⟨sc, fa, rn, fr, cu, shc, mfs, oc, ua, uv, uacc⟩ := r
  dsimp only at hact ⊢
  subst hact
  refine ⟨?_, ?_, ?_, ?_⟩
  · intro hN hp hsrc
    subst hsrc
    simp [wsRead, frameRead, limitedRead, hN, show min pcap rn ≠ 0 by omega]
  · intro hle hsl hfrag
    subst hfrag
    by_cases hN : rn = 0
    · subst hN
      simp [wsRead, frameRead, limitedRead, FrameReaderSt.resetFragment]
    · have hsrcne : sc.isEmpty = false := by
        cases hsq : sc with
        | nil => subst hsq; simp at hsl; omega
        | cons a t => simp
      simp [wsRead, frameRead, limitedRead, hN, hsrcne,
        FrameReaderSt.resetFragment, show min pcap rn = rn by omega,
        show min rn sc.length = rn by omega]
  · intro hle hsl hfrag hchk hval
    subst hfrag; subst hchk; subst hval
    by_cases hN : rn = 0
    · subst hN
      simp [wsRead, frameRead, limitedRead]
    · have hsrcne : sc.isEmpty = false := by
        cases hsq : sc with
        | nil => subst hsq; simp at hsl; omega
        | cons a t => simp
      simp [wsRead, frameRead, limitedRead, hN, hsrcne,
        show min pcap rn = rn by omega, show min rn sc.length = rn by omega]
  · intro hle hsl hfrag hok
    subst hfrag
    by_cases hN : rn = 0
    · subst hN
      rcases hok with h | h <;> subst h <;>
        simp [wsRead, frameRead, limitedRead, FrameReaderSt.reset]
    · have hsrcne : sc.isEmpty = false := by
        cases hsq : sc with
        | nil => subst hsq; simp at hsl; omega
        | cons a t => simp
      rcases hok with h | h <;> subst h <;>
        simp [wsRead, frameRead, limitedRead, hN, hsrcne,
          FrameReaderSt.reset, show min pcap rn = rn by omega,
          show min rn sc.length = rn by omega]

/-- C5: a header whose length exceeds a positive `MaxFrameSize` makes
`NextFrame` fail with FrameTooLarge while the source still holds the entire
payload (only the header bytes were consumed, and the limited reader was
never armed); and the check is per frame: any frame whose own length fits
the limit is accepted regardless of the reader's fragmentation state, i.e.
of how many bytes earlier frames of the same message carried. -/
theorem nextFrame_maxFrameSize (ext : NextFrameExt) (r : FrameReaderSt)
    (hdr : Header) (k : Nat) (src' : List Nat)
    (hread : readHeader r.source = .ok (hdr, k, src'))
    (hskip : r.skipHeaderCheck = false) (hchk : ext.check hdr = none) :
    (0 < r.maxFrameSize → r.maxFrameSize < hdr.length →
      nextFrame ext r = (.error .frameTooLarge, { r with source := src' })) ∧
    (0 < r.maxFrameSize → hdr.length ≤ r.maxFrameSize →
      ext.isCompressed hdr = .ok false → isControlOp hdr.opCode = false →
      (nextFrame ext r).1 = .ok hdr) := by
  constructor
  · intro hpos hbig
    simp [nextFrame, hread, hskip, hchk, hpos, hbig]
  · intro hpos hfit hcomp hctl
    have hnot : ¬ (0 < r.maxFrameSize ∧ r.maxFrameSize < hdr.length) := by
      omega
    simp only [nextFrame, hread, hskip, hchk, hcomp, hctl, hnot]
    simp [hctl]

/-- Witness for C5 at a concrete reader: limit 4 rejects a 5-byte frame
without touching its payload, and accepts a 4-byte continuation frame of an
in-progress fragmented message. -/
theorem nextFrame_maxFrameSize_witness :
    (nextFrame ⟨fun _ => none, fun _ => .ok false, false, none⟩
        ⟨[130, 5, 9, 9, 9, 9, 9], false, 0, true, false, false, 4, 2, false, true, 0⟩ =
      (.error .frameTooLarge,
        ⟨[9, 9, 9, 9, 9], false, 0, true, false, false, 4, 2, false, true, 0⟩)) ∧
    ((nextFrame ⟨fun _ => none, fun _ => .ok false, false, none⟩
        ⟨[128, 4, 9, 9, 9, 9], false, 0, true, false, false, 4, 2, false, true, 0⟩).1 =
      .ok ⟨true, 0, 0, false, 4, ⟨0, 0, 0, 0⟩⟩) := by
  constructor
  · exact (nextFrame_maxFrameSize ⟨fun _ => none, fun _ => .ok false, false, none⟩
      ⟨[130, 5, 9, 9, 9, 9, 9], false, 0, true, false, false, 4, 2, false, true, 0⟩
      ⟨true, 0, 2, false, 5, ⟨0, 0, 0, 0⟩⟩ 2 [9, 9, 9, 9, 9]
      rfl rfl rfl).1 (by decide) (by decide)
  · exact (nextFrame_maxFrameSize ⟨fun _ => none, fun _ => .ok false, false, none⟩
      ⟨[128, 4, 9, 9, 9, 9], false, 0, true, false, false, 4, 2, false, true, 0⟩
      ⟨true, 0, 0, false, 4, ⟨0, 0, 0, 0⟩⟩ 2 [9, 9, 9, 9]
      rfl rfl rfl).2 (by decide) (by decide) rfl (by decide)

/-- Witness for C4: a 2-byte final frame read with a 4-byte buffer returns
its 2 bytes and EOF, clearing the message state. -/
theorem frameRead_exhaustion_witness :
    wsRead ⟨fun _ => none, fun _ => .ok false, false, none⟩
      ⟨[7, 8], true, 2, false, false, false, 0, 2, false, true, 0⟩ 4 =
      ((2, some .eof), ⟨[], false, 0, false, false, false, 0, 0, false, true, 0⟩) := by
  have h := (frameRead_exhaustion ⟨fun _ => none, fun _ => .ok false, false, none⟩
    ⟨[7, 8], true, 2, false, false, false, 0, 2, false, true, 0⟩ 4 rfl).2.2.2
    (by decide) (by decide) rfl (Or.inl rfl)
  simpa [FrameReaderSt.reset] using h

/-- C10: with no current frame and no fragmented message in progress, `Read`
returns 0 bytes and ErrNoFrameAdvance without consuming the source; with a
fragmented message in progress it advances to the next frame itself and then
reads from that frame. -/
theorem wsRead_no_frame (ext : NextFrameExt) (r : FrameReaderSt) (pcap : Nat)
    (hact : r.frameActive = false) :
    (r.fragmented = false → wsRead ext r pcap = ((0, some .noFrameAdvance), r)) ∧
    (∀ hdr k src', r.fragmented = true →
      readHeader r.source = .ok (hdr, k, src') →
      r.skipHeaderCheck = false → ext.check hdr = none →
      ¬ (0 < r.maxFrameSize ∧ r.maxFrameSize < hdr.length) →
      ext.isCompressed hdr = .ok false →
      isControlOp hdr.opCode = false →
      wsRead ext r pcap =
        frameRead { r with
                    source := src', rawN := hdr.length,
                    utf8Active := if r.checkUTF8 ∧ (hdr.opCode = 1 ∨ r.opCode = 1)
                                  then true else r.utf8Active,
                    frameActive := true, fragmented := !hdr.fin } pcap) := by
  constructor
  · intro hfr
    simp [wsRead, hact, hfr]
  · intro hdr k src' hfr hread hskip hchk hfit hcomp hctl
    have hres : nextFrame ext r = (.ok hdr, { r with
        source := src', rawN := hdr.length,
        utf8Active := if r.checkUTF8 ∧ (hdr.opCode = 1 ∨ r.opCode = 1)
                      then true else r.utf8Active,
        frameActive := true, fragmented := !hdr.fin }) := by
      cases hfin : hdr.fin <;>
        simp [nextFrame, hread, hskip, hchk, hfit, hcomp, hctl, hfr, hfin,
          apply_ite]
    simp only [wsRead, hact, hfr, hres, Bool.not_true, ite_false, ite_true,
      Bool.false_eq_true, if_neg]
    simp

/-- Witness for C10: an idle reader errors with ErrNoFrameAdvance and stays
untouched; a fragmented reader advances into a 2-byte continuation frame and
returns its 2 payload bytes. -/
theorem wsRead_no_frame_witness :
    (wsRead ⟨fun _ => none, fun _ => .ok false, false, none⟩
        ⟨[1, 2, 3], false, 0, false, false, false, 0, 2, false, true, 0⟩ 4 =
      ((0, some .noFrameAdvance),
        ⟨[1, 2, 3], false, 0, false, false, false, 0, 2, false, true, 0⟩)) ∧
    (wsRead ⟨fun _ => none, fun _ => .ok false, false, none⟩
        ⟨[0, 2, 10, 11], false, 0, true, false, false, 0, 2, false, true, 0⟩ 4 =
      ((2, none), ⟨[], false, 0, true, false, false, 0, 2, false, true, 0⟩)) := by
  constructor
  · exact (wsRead_no_frame _ _ 4 rfl).1 rfl
  · have h := (wsRead_no_frame ⟨fun _ => none, fun _ => .ok false, false, none⟩
      ⟨[0, 2, 10, 11], false, 0, true, false, false, 0, 2, false, true, 0⟩ 4 rfl).2
      ⟨false, 0, 0, false, 2, ⟨0, 0, 0, 0⟩⟩ 2 [10, 11] rfl rfl rfl rfl
      (by decide) rfl (by decide)
    rw [h]
    rfl

/-! ## Message writer (websocketTransport.Write / writeCompress) -/

/-- The websocket options consulted by the write path; `compressThreshold`
is an int64 compared against `int64(len(p))`. -/
structure WriteOptions where
  compressEnabled : Bool
  compressThreshold : Int
deriving DecidableEq, Repr

/-- `t.negotiated`: per-connection permessage-deflate parameters parsed from
the handshake. -/
structure Negotiated where
  enabled : Bool
  clientNoContextTake : Bool
  serverNoContextTake : Bool
  clientMaxWindowBits : Nat
  serverMaxWindowBits : Nat
deriving DecidableEq, Repr

/-- `writeCompress` of the negotiation-aware transport variant
(src/unnamed/part_002:297-377): re-check the compress condition, compress
the payload into the buffer (`deflate` abstracts the flate writer's
`Write` + `Flush` output, errors elided), then mask the *compressed* bytes
on the client side, then pack the header with RSV1 set iff compression ran.
Result: (header bytes, payload bytes as placed after the header, returned
data size). -/
def writeCompressV1 (opts : WriteOptions) (clientSide : Bool) (op : Nat)
    (mask : Mask) (deflate : List Nat → List Nat) (p : List Nat) :
    Except WsErr (List Nat × List Nat × Nat) :=
  let dataSize := p.length
  let compressed := opts.compressEnabled &&
    decide (opts.compressThreshold ≤ (dataSize : Int))
  let q := if compressed then deflate p else p
  let payloadLength := if compressed then q.length else dataSize
  let q' := if clientSide then fastCipher q mask 0 else q
  match packHeader op true compressed clientSide mask payloadLength with
  | .error e => .error e
  | .ok (hdr, _) => .ok (hdr, q', dataSize)

/-- `websocketTransport.Write` of the negotiation-aware transport variant
(src/unnamed/part_002:256-295): compression requires the global option, the
negotiated flag *and* the threshold; the plain path masks the payload on
the client side and packs a header with RSV1 clear. -/
def wsWriteV1 (opts : WriteOptions) (neg : Negotiated) (clientSide : Bool)
    (op : Nat) (mask : Mask) (deflate : List Nat → List Nat) (p : List Nat) :
    Except WsErr (List Nat × List Nat × Nat) :=
  if opts.compressEnabled ∧ neg.enabled ∧
      opts.compressThreshold ≤ (p.length : Int) then
    writeCompressV1 opts clientSide op mask deflate p
  else
    let dataSize := p.length
    let p' := if clientSide then fastCipher p mask 0 else p
    match packHeader op true false clientSide mask dataSize with
    | .error e => .error e
    | .ok (hdr, _) => .ok (hdr, p', dataSize)

/-- `writeCompress` of the earlier transport variant
(src/unnamed/part_002:737-804): this variant masks the *raw* payload first
(lines 756-760) and only then compresses the already-masked bytes, packing
the header with RSV1 set; the payload written after the header is the
compressed data with no further masking. -/
def writeCompressV2 (opts : WriteOptions) (clientSide : Bool) (op : Nat)
    (mask : Mask) (deflate : List Nat → List Nat) (p : List Nat) :
    Except WsErr (List Nat × List Nat × Nat) :=
  let dataSize := p.length
  let p1 := if clientSide then fastCipher p mask 0 else p
  let compressed := opts.compressEnabled &&
    decide (opts.compressThreshold ≤ (dataSize : Int))
  let q := if compressed then deflate p1 else p1
  let payloadLength := if compressed then q.length else dataSize
  match packHeader op true compressed clientSide mask payloadLength with
  | .error e => .error e
  | .ok (hdr, _) => .ok (hdr, q, dataSize)

/-- `websocketTransport.Write` of the earlier transport variant
(src/unnamed/part_002:696-735): the compress decision consults only the
global option and the threshold — the handshake negotiation state does not
exist in this variant, so compression is emitted whenever the option is on. -/
def wsWriteV2 (opts : WriteOptions) (clientSide : Bool) (op : Nat)
    (mask : Mask) (deflate : List Nat → List Nat) (p : List Nat) :
    Except WsErr (List Nat × List Nat × Nat) :=
  if opts.compressEnabled ∧ opts.compressThreshold ≤ (p.length : Int) then
    writeCompressV2 opts clientSide op mask deflate p
  else
    let dataSize := p.length
    let p' := if clientSide then fastCipher p mask 0 else p
    match packHeader op true false clientSide mask dataSize with
    | .error e => .error e
    | .ok (hdr, _) => .ok (hdr, p', dataSize)

/-- C1: on the negotiation-aware write path a connection without negotiated
permessage-deflate emits RSV1 = 0 and the payload uncompressed even though
the global option is on and the payload is over the threshold; the earlier
variant's write path (`wsWriteV2`), which ignores negotiation, emits RSV1 = 1
and a compressed payload on the same input — the code slip the claim and the
repository's own regression test `TestNoCompressWhenNotNegotiated` rule out. -/
theorem write_compression_negotiation_gate :
    (wsWriteV1 ⟨true, 1⟩ ⟨false, false, false, 0, 0⟩ false 2 ⟨0, 0, 0, 0⟩
        (fun _ => [7]) [1, 2, 3] = .ok ([130, 3], [1, 2, 3], 3) ∧
      130 &&& 64 = 0) ∧
    (wsWriteV2 ⟨true, 1⟩ false 2 ⟨0, 0, 0, 0⟩
        (fun _ => [7]) [1, 2, 3] = .ok ([194, 1], [7], 3) ∧
      194 &&& 64 ≠ 0 ∧ ([7] : List Nat) ≠ [1, 2, 3]) := by
  refine ⟨⟨?_, by decide⟩, ⟨?_, by decide, by decide⟩⟩ <;> rfl

/-- C6: ordering of compression and masking on a compressing write.  On the
negotiation-aware variant the client-side payload on the wire is the mask
applied to the compressed bytes (compress first, then mask), and server-side
writes never mask; the earlier variant instead compresses the already-masked
bytes, so its wire payload is `deflate(mask(p))` — not what the claim and
the spec's egress data flow require. -/
theorem writeCompress_mask_order (opts : WriteOptions) (mask : Mask)
    (deflate : List Nat → List Nat) (p : List Nat) (op : Nat)
    (hcomp : opts.compressEnabled = true)
    (hthr : opts.compressThreshold ≤ (p.length : Int)) :
    (∀ hdr payload n, writeCompressV1 opts true op mask deflate p =
        .ok (hdr, payload, n) → payload = fastCipher (deflate p) mask 0) ∧
    (∀ hdr payload n, writeCompressV2 opts true op mask deflate p =
        .ok (hdr, payload, n) → payload = deflate (fastCipher p mask 0)) ∧
    (∀ hdr payload n, writeCompressV1 opts false op mask deflate p =
        .ok (hdr, payload, n) → payload = deflate p) ∧
    (∀ hdr payload n, writeCompressV2 opts false op mask deflate p =
        .ok (hdr, payload, n) → payload = deflate p) := by
  have hc : (opts.compressEnabled &&
      decide (opts.compressThreshold ≤ (p.length : Int))) = true := by
    simp [hcomp, hthr]
  refine ⟨?_, ?_, ?_, ?_⟩ <;>
    · intro hdr payload n he
      simp only [writeCompressV1, writeCompressV2, hc, if_true, ite_true] at he
      revert he
      cases hpk : packHeader op true true true mask (deflate p).length <;>
        cases hpk2 : packHeader op true true true mask
          (deflate (fastCipher p mask 0)).length <;>
        cases hpk3 : packHeader op true true false mask (deflate p).length <;>
          simp_all

/-- Witness for C6: with the stand-in codec `l => 3 :: l`, payload 200 and a
client mask 5, the negotiation-aware variant puts `[6, 200]` on the wire
(mask over the compressed bytes) while the earlier variant puts `[3, 205]`
(compression over the masked bytes). -/
theorem writeCompress_mask_order_witness :
    (∀ hdr payload n, writeCompressV1 ⟨true, 1⟩ true 2 ⟨5, 0, 0, 0⟩
        (fun l => 3 :: l) [200] = .ok (hdr, payload, n) → payload = [6, 200]) ∧
    (∀ hdr payload n, writeCompressV2 ⟨true, 1⟩ true 2 ⟨5, 0, 0, 0⟩
        (fun l => 3 :: l) [200] = .ok (hdr, payload, n) → payload = [3, 205]) := by
  have h := writeCompress_mask_order ⟨true, 1⟩ ⟨5, 0, 0, 0⟩ (fun l => 3 :: l)
    [200] 2 rfl (by decide)
  refine ⟨fun hdr payload n he => ?_, fun hdr payload n he => ?_⟩
  · rw [h.1 hdr payload n he]; rfl
  · rw [h.2.1 hdr payload n he]; rfl

/-! ## Flate codec wrappers (wsutils FlateReader / FlateWriter) -/

/-- The canonical sync-flush tail `00 00 FF FF` (`compressionTail` and
`compressionReadTail` in src/unnamed/part_003:10-18). -/
def compressionReadTail : List Nat := [0, 0, 255, 255]

/-- `suffixedReader` (src/unnamed/part_003:210-266): `r` is the remaining
payload source (`none` once the source reported EOF), `pos` the progress
through the 4-byte suffix. -/
structure SuffixedReader where
  r : Option (List Nat)
  pos : Nat
deriving DecidableEq, Repr

/-- `suffixedReader.Read` over a list source (part_003:225-240): deliver
source bytes while the source lasts, convert the source's EOF into a switch
to the suffix, deliver the suffix, then EOF.  The error component `some ()`
is `io.EOF`. -/
def srRead (st : SuffixedReader) (pcap : Nat) :
    (List Nat × Option Unit) × SuffixedReader :=
  match st.r with
  | some src =>
    if pcap = 0 then (([], none), st)
    else if src.isEmpty then (([], none), { st with r := none })
    else
      let n := min pcap src.length
      ((src.take n, none), { st with r := some (src.drop n) })
  | none =>
    if 4 ≤ st.pos then (([], some ()), st)
    else
      let n := min pcap (4 - st.pos)
      (((compressionReadTail.drop st.pos).take n, none), { st with pos := st.pos + n })

/-- Drain a `suffixedReader` with reads of buffer size `pcap` until it
reports EOF, collecting the delivered bytes; `fuel` bounds the loop. -/
def srDrain (pcap : Nat) : SuffixedReader → Nat → List Nat
  | _, 0 => []
  | st, fuel + 1 =>
    match srRead st pcap with
    | ((_, some _), _) => []
    | ((bs, none), st') => bs ++ srDrain pcap st' fuel

/-- The bytes a `suffixedReader` still has to deliver. -/
def srRemaining (st : SuffixedReader) : List Nat :=
  (st.r.getD []) ++ compressionReadTail.drop st.pos

/-- Loop measure: strictly decreases on every non-EOF `srRead`. -/
def srMeasure (st : SuffixedReader) : Nat :=
  (match st.r with | some s => s.length + 1 | none => 0) + (4 - st.pos)

/-- `cbuf` (src/unnamed/part_003:160-208): a fixed 4-byte window holding
back the most recent bytes; `out` is what was flushed to the destination
(destination errors are not modelled).  `buf` always has length 4; entries
at index ≥ n hold the zeroes written by `reset` or stale shifted bytes. -/
structure Cbuf where
  buf : List Nat
  n : Nat
  out : List Nat
deriving DecidableEq, Repr

/-- `cbuf.reset` state. -/
def Cbuf.empty : Cbuf := ⟨[0, 0, 0, 0], 0, []⟩

/-- Go `copy(dst[i:], src)` on a fixed-size byte array. -/
def listCopyAt (dst : List Nat) (i : Nat) (src : List Nat) : List Nat :=
  let s := src.take (dst.length - i)
  dst.take i ++ s ++ dst.drop (i + s.length)

/-- `cbuf.Write` (part_003:167-185): split off everything beyond the last 4
bytes, flush the window overflow, flush the head, keep the last ≤ 4 bytes. -/
def cbufWrite (c : Cbuf) (p : List Nat) : Cbuf :=
  let head := if 4 < p.length then p.take (p.length - 4) else []
  let tail := if 4 < p.length then p.drop (p.length - 4) else p
  let m := c.n + tail.length
  let c1 := if 4 < m then
      { c with out := c.out ++ c.buf.take (m - 4),
               buf := listCopyAt c.buf 0 (c.buf.drop (m - 4)),
               n := c.n - (m - 4) }
    else c
  let c2 := if head.isEmpty then c1 else { c1 with out := c1.out ++ head }
  { c2 with buf := listCopyAt c2.buf c2.n tail, n := min (c2.n + tail.length) 4 }

/-- The compressor's output fed chunk-wise through a fresh `cbuf`. -/
def cbufWrites (cs : List (List Nat)) : Cbuf := cs.foldl cbufWrite Cbuf.empty

/-- `FlateWriter.Flush` (part_003:130-157) given the underlying compressor's
flush result `cerr`: a set error wins, otherwise `checkTail` demands the
window hold exactly `00 00 FF FF`. -/
def flateWriterFlush (cerr : Option WsErr) (c : Cbuf) : Option WsErr :=
  match cerr with
  | some e => some e
  | none => if c.buf = compressionReadTail then none else some .badTail


/-- The `cbuf` state after the byte stream `bts` has passed through it: the
window holds the last `min |bts| 4` bytes (padded with the reset zeroes when
fewer than 4 bytes were ever written), everything earlier was flushed. -/
def cbufStateOf (bts : List Nat) : Cbuf :=
  ⟨bts.drop (bts.length - min bts.length 4) ++ List.replicate (4 - min bts.length 4) 0,
   min bts.length 4,
   bts.take (bts.length - min bts.length 4)⟩

theorem cbufWrite_short (out0 L p : List Nat) (hL : L.length ≤ 4) (hp : p.length ≤ 4) :
    cbufWrite ⟨L ++ List.replicate (4 - L.length) 0, L.length, out0⟩ p =
      ⟨(L ++ p).drop (L.length + p.length - min (L.length + p.length) 4) ++
         List.replicate (4 - min (L.length + p.length) 4) 0,
       min (L.length + p.length) 4,
       out0 ++ (L ++ p).take (L.length + p.length - min (L.length + p.length) 4)⟩ := by
  rcases L with _ | ⟨l0, _ | ⟨l1, _ | ⟨l2, _ | ⟨l3, _ | ⟨l4, L⟩⟩⟩⟩⟩ <;>
    rcases p with _ | ⟨p0, _ | ⟨p1, _ | ⟨p2, _ | ⟨p3, _ | ⟨p4, p⟩⟩⟩⟩⟩ <;>
      simp_all [cbufWrite, listCopyAt] <;> omega

theorem length_four_explode (l : List Nat) (h : l.length = 4) :
    ∃ a b c d, l = [a, b, c, d] := by
  rcases l with _ | ⟨a, _ | ⟨b, _ | ⟨c, _ | ⟨d, _ | ⟨e, t⟩⟩⟩⟩⟩ <;> simp_all

theorem cbufWrite_long (out0 L head : List Nat) (a b c d : Nat)
    (hL : L.length ≤ 4) (hh : head ≠ []) :
    cbufWrite ⟨L ++ List.replicate (4 - L.length) 0, L.length, out0⟩
        (head ++ [a, b, c, d]) =
      ⟨[a, b, c, d], 4, out0 ++ L ++ head⟩ := by
  have hlen : 4 < (head ++ [a, b, c, d]).length := by
    rcases head with _ | ⟨x, t⟩
    · simp_all
    · simp
  have hsub : (head ++ [a, b, c, d]).length - 4 = head.length := by
    simp
  have htake : (head ++ [a, b, c, d]).take ((head ++ [a, b, c, d]).length - 4) = head := by
    rw [hsub, List.take_left]
  have hdrop : (head ++ [a, b, c, d]).drop ((head ++ [a, b, c, d]).length - 4) = [a, b, c, d] := by
    rw [hsub, List.drop_left]
  rcases L with _ | ⟨l0, _ | ⟨l1, _ | ⟨l2, _ | ⟨l3, _ | ⟨l4, L⟩⟩⟩⟩⟩ <;>
    simp_all [cbufWrite, listCopyAt, hlen, htake, hdrop]

theorem cbufWrite_spec (bts p : List Nat) :
    cbufWrite (cbufStateOf bts) p = cbufStateOf (bts ++ p) := by
  have hLlen : (bts.drop (bts.length - min bts.length 4)).length = min bts.length 4 := by
    simp; omega
  have hstate : cbufStateOf bts =
      ⟨bts.drop (bts.length - min bts.length 4) ++
         List.replicate (4 - (bts.drop (bts.length - min bts.length 4)).length) 0,
       (bts.drop (bts.length - min bts.length 4)).length,
       bts.take (bts.length - min bts.length 4)⟩ := by
    rw [hLlen]; rfl
  rcases le_or_lt p.length 4 with hp | hp
  · rw [hstate, cbufWrite_short _ _ p (by omega) hp]
    rw [hLlen]
    have e1 : min (min bts.length 4 + p.length) 4 = min (bts ++ p).length 4 := by
      simp; omega
    have edrop : (bts ++ p).drop (bts.length - min bts.length 4) =
        bts.drop (bts.length - min bts.length 4) ++ p := by
      rw [List.drop_append_eq_append_drop]
      congr 1
      rw [show bts.length - min bts.length 4 - bts.length = 0 by omega, List.drop_zero]
    have e2 : (bts.drop (bts.length - min bts.length 4) ++ p).drop
          (min bts.length 4 + p.length - min (min bts.length 4 + p.length) 4) =
        (bts ++ p).drop ((bts ++ p).length - min (bts ++ p).length 4) := by
      rw [← edrop, List.drop_drop, ← e1]
      congr 1
      simp
      omega
    have e3 : bts.take (bts.length - min bts.length 4) ++
          (bts.drop (bts.length - min bts.length 4) ++ p).take
            (min bts.length 4 + p.length - min (min bts.length 4 + p.length) 4) =
        (bts ++ p).take ((bts ++ p).length - min (bts ++ p).length 4) := by
      have htk : (bts ++ p).take (bts.length - min bts.length 4) =
          bts.take (bts.length - min bts.length 4) := by
        rw [List.take_append_eq_append_take]
        rw [show bts.length - min bts.length 4 - bts.length = 0 by omega, List.take_zero,
          List.append_nil]
      rw [show (bts ++ p).length - min (bts ++ p).length 4 =
          (bts.length - min bts.length 4) +
          (min bts.length 4 + p.length - min (min bts.length 4 + p.length) 4) by
            simp; omega,
        List.take_add, htk, edrop]
    rw [cbufStateOf, e2, e3, e1]
  · obtain ⟨a, b, c, d, ht4⟩ := length_four_explode (p.drop (p.length - 4)) (by simp <;> omega)
    have hsplit : p = p.take (p.length - 4) ++ [a, b, c, d] := by
      rw [← ht4, List.take_append_drop]
    have hh : p.take (p.length - 4) ≠ [] := by
      have hl : (p.take (p.length - 4)).length = p.length - 4 := by simp <;> omega
      intro hcon
      rw [hcon] at hl
      simp at hl
      omega
    rw [hstate, hsplit, cbufWrite_long _ _ _ a b c d (by omega) hh]
    have hlen2 : (bts ++ (p.take (p.length - 4) ++ [a, b, c, d])).length =
        bts.length + (p.length - 4) + 4 := by simp; omega
    have hmin : min (bts ++ (p.take (p.length - 4) ++ [a, b, c, d])).length 4 = 4 := by
      rw [hlen2]; omega
    have hdrop2 : (bts ++ (p.take (p.length - 4) ++ [a, b, c, d])).drop
        ((bts ++ (p.take (p.length - 4) ++ [a, b, c, d])).length - 4) = [a, b, c, d] := by
      rw [hlen2, show bts.length + (p.length - 4) + 4 - 4 =
        (bts ++ p.take (p.length - 4)).length by simp <;> omega, ← List.append_assoc,
        List.drop_left]
    have htake2 : (bts ++ (p.take (p.length - 4) ++ [a, b, c, d])).take
        ((bts ++ (p.take (p.length - 4) ++ [a, b, c, d])).length - 4) =
        bts ++ p.take (p.length - 4) := by
      rw [hlen2, show bts.length + (p.length - 4) + 4 - 4 =
        (bts ++ p.take (p.length - 4)).length by simp <;> omega, ← List.append_assoc,
        List.take_left]
    rw [cbufStateOf, hmin, hdrop2, htake2]
    simp [List.take_append_drop, List.append_assoc]

theorem cbufWrites_aux : ∀ (cs : List (List Nat)) (bts : List Nat),
    cs.foldl cbufWrite (cbufStateOf bts) = cbufStateOf (bts ++ cs.flatten) := by
  intro cs
  induction cs with
  | nil => intro bts; simp
  | cons c cs ih =>
    intro bts
    simp only [List.foldl_cons, cbufWrite_spec, ih, List.flatten_cons, List.append_assoc]

theorem cbufWrites_spec (cs : List (List Nat)) :
    cbufWrites cs = cbufStateOf cs.flatten := by
  have h0 : Cbuf.empty = cbufStateOf [] := rfl
  rw [cbufWrites, h0, cbufWrites_aux]
  simp

theorem cbuf_tail_iff (bts : List Nat) :
    (cbufStateOf bts).buf = compressionReadTail ↔
      ∃ pre, bts = pre ++ [0, 0, 255, 255] := by
  constructor
  · intro h
    rcases le_or_lt 4 bts.length with h4 | h4
    · have hn : min bts.length 4 = 4 := by omega
      refine ⟨bts.take (bts.length - 4), ?_⟩
      simp only [cbufStateOf, hn, compressionReadTail] at h
      simp only [Nat.sub_self, List.replicate, List.append_nil] at h
      conv_lhs => rw [← List.take_append_drop (bts.length - 4) bts, h]
    · exfalso
      rcases bts with _ | ⟨a, _ | ⟨b, _ | ⟨c, _ | ⟨d, t⟩⟩⟩⟩ <;>
        simp_all [cbufStateOf, compressionReadTail, List.replicate] <;> omega
  · rintro ⟨pre, rfl⟩
    have hlen : (pre ++ [0, 0, 255, 255] : List Nat).length = pre.length + 4 := by simp
    have hmin2 : (pre.length + 4) ⊓ 4 = 4 := by omega
    simp only [cbufStateOf, hlen, hmin2, compressionReadTail]
    rw [show pre.length + 4 - 4 = pre.length by omega, List.drop_left]
    simp [List.replicate]

theorem srDrain_spec (pcap : Nat) (hp : 1 ≤ pcap) :
    ∀ (fuel : Nat) (st : SuffixedReader), st.pos ≤ 4 → srMeasure st ≤ fuel →
      srDrain pcap st fuel = srRemaining st := by
  intro fuel
  induction fuel with
  | zero =>
    intro st hpos hm
    obtain ⟨r, pos⟩ := st
    simp only [srMeasure] at hm
    dsimp only at hpos hm
    rcases r with _ | s
    · dsimp only at hm
      have : pos = 4 := by omega
      subst this
      simp [srDrain, srRemaining, compressionReadTail]
    · dsimp only at hm
      omega
  | succ fuel ih =>
    intro st hpos hm
    obtain ⟨r, pos⟩ := st
    simp only [srMeasure] at hm
    dsimp only at hpos hm
    rcases r with _ | s
    · dsimp only at hm
      rcases le_or_lt 4 pos with h4 | h4
      · have : pos = 4 := by omega
        subst this
        simp [srDrain, srRead, srRemaining, compressionReadTail]
      · simp only [srDrain, srRead, if_neg (by omega : ¬ 4 ≤ pos)]
        rw [ih ⟨none, pos + min pcap (4 - pos)⟩
          (show pos + min pcap (4 - pos) ≤ 4 by omega)
          (show srMeasure ⟨none, pos + min pcap (4 - pos)⟩ ≤ fuel by
            simp only [srMeasure]
            omega)]
        simp only [srRemaining, Option.getD, List.nil_append]
        exact List.drop_take_append_drop compressionReadTail pos (min pcap (4 - pos))
    · dsimp only at hm
      rcases s with _ | ⟨a, t⟩
      · simp only [List.length_nil] at hm
        simp only [srDrain, srRead, if_neg (by omega : ¬ pcap = 0), List.isEmpty_nil,
          if_true, List.nil_append]
        rw [ih ⟨none, pos⟩ (show pos ≤ 4 from hpos)
          (show srMeasure ⟨none, pos⟩ ≤ fuel by simp only [srMeasure]; omega)]
        simp [srRemaining]
      · have hne : (a :: t).isEmpty = false := by simp
        simp only [srDrain, srRead, if_neg (by omega : ¬ pcap = 0), hne, if_false,
          Bool.false_eq_true]
        rw [ih ⟨some ((a :: t).drop (min pcap (a :: t).length)), pos⟩
          (show pos ≤ 4 from hpos)
          (show srMeasure ⟨some ((a :: t).drop (min pcap (a :: t).length)), pos⟩ ≤ fuel by
            simp only [srMeasure, List.length_drop, List.length_cons]
            simp only [List.length_cons] at hm
            omega)]
        simp only [srRemaining, Option.getD, ← List.append_assoc]
        rw [List.take_append_drop]

/-- C7: the flate wrapper's read side delivers exactly the source bytes
followed by `00 00 FF FF`, the suffix starting only after the source is
exhausted; the write side withholds the trailing four bytes of the
compressor output from the destination, and Flush errors exactly when the
underlying codec erred or that trailing window is not `00 00 FF FF`. -/
theorem flate_wrapper_correct (src : List Nat) (pcap : Nat) (hp : 1 ≤ pcap)
    (cs : List (List Nat)) :
    (srDrain pcap ⟨some src, 0⟩ (src.length + 6) = src ++ [0, 0, 255, 255]) ∧
    ((cbufWrites cs).out =
      cs.flatten.take (cs.flatten.length - min cs.flatten.length 4)) ∧
    (flateWriterFlush none (cbufWrites cs) = none ↔
      ∃ pre, cs.flatten = pre ++ [0, 0, 255, 255]) ∧
    (∀ e, flateWriterFlush (some e) (cbufWrites cs) = some e) := by
  refine ⟨?_, ?_, ?_, fun e => rfl⟩
  · rw [srDrain_spec pcap hp (src.length + 6) ⟨some src, 0⟩
      (show (0 : Nat) ≤ 4 by omega)
      (show srMeasure ⟨some src, 0⟩ ≤ src.length + 6 by simp [srMeasure])]
    simp [srRemaining, compressionReadTail]
  · rw [cbufWrites_spec]
    rfl
  · rw [cbufWrites_spec]
    constructor
    · intro h
      by_cases hb : (cbufStateOf cs.flatten).buf = compressionReadTail
      · simpa [compressionReadTail] using (cbuf_tail_iff cs.flatten).1 hb
      · simp [flateWriterFlush, hb] at h
    · intro hex
      have hb := (cbuf_tail_iff cs.flatten).2 (by simpa [compressionReadTail] using hex)
      simp [flateWriterFlush, hb]

/-- Witness for C7: source `[9]` drains as `[9] ++ 00 00 FF FF`; writing the
chunks `[1]` and `[0,0,255,255]` flushes only `[1]` and the tail check
passes. -/
theorem flate_wrapper_correct_witness :
    srDrain 2 ⟨some [9], 0⟩ 7 = [9, 0, 0, 255, 255] ∧
    (cbufWrites [[1], [0, 0, 255, 255]]).out = [1] ∧
    flateWriterFlush none (cbufWrites [[1], [0, 0, 255, 255]]) = none := by
  have h := flate_wrapper_correct [9] 2 (by omega) [[1], [0, 0, 255, 255]]
  refine ⟨by simpa using h.1, by simpa using h.2.1, ?_⟩
  exact (h.2.2.1).2 ⟨[1], rfl⟩

/-! ## Control-frame close handling (ControlHandler.HandleClose) -/

/-- A frame emitted to the peer by the control handler: opcode, payload
bytes (recorded before masking), and whether this side masks it. -/
structure EmittedFrame where
  opCode : Nat
  payload : List Nat
  masked : Bool
deriving DecidableEq, Repr

/-- `ws.ParseCloseFrameData` (external collaborator whose behaviour the spec
states): fewer than two bytes parse as status 0 with empty reason, otherwise
the first two bytes are a big-endian status code and the rest the reason. -/
def parseCloseFrameData (payload : List Nat) : Nat × List Nat :=
  if payload.length < 2 then (0, [])
  else (payload.getD 0 0 * 256 + payload.getD 1 0, payload.drop 2)

/-- `ControlHandler.HandleClose` (frame_reader.go:394-431), in the
transports' configuration (`DisableSrcCiphering = true`: the reader pipeline
has already unmasked the payload).  `length` is the close frame's header
length, `src` the readable payload bytes, `checkClose` abstracts
`ws.CheckCloseFrameData` (external collaborator) returning the failure
message if any.  Result: the frames emitted to the writer under the write
lock, in order, and the error reported to the caller.  `1005` is
`StatusNoStatusRcvd`; `[3, 234]` is the big-endian encoding of
`StatusProtocolError` (1002) placed by `NewCloseFrameBody`. -/
def handleClose (clientSide : Bool)
    (checkClose : Nat → List Nat → Option (List Nat))
    (length : Nat) (src : List Nat) : List EmittedFrame × Option WsErr :=
  if length = 0 then
    ([⟨8, [], clientSide⟩], some (.closed 1005 []))
  else if src.length < length then
    ([], some (if src.length = 0 then .eof else .unexpectedEOF))
  else
    let subp := src.take length
    let code := (parseCloseFrameData subp).1
    let reason := (parseCloseFrameData subp).2
    match checkClose code reason with
    | some msg => ([⟨8, 3 :: 234 :: msg, clientSide⟩], some (.closeCheck msg))
    | none => ([⟨8, subp.take 2, clientSide⟩], some (.closed code reason))

/-- C9: close-frame handling.  An empty close payload elicits a close reply
and reports PeerClosed with NoStatusReceived (1005); a non-empty payload is
parsed as a big-endian status code plus UTF-8 reason and, when validation
passes, a symmetric close frame is emitted and PeerClosed{code, reason}
reported; when validation fails (as for a 1-byte payload) a close frame with
ProtocolError status (1002) is emitted before the validation error is
reported. -/
theorem handleClose_cases (clientSide : Bool)
    (checkClose : Nat → List Nat → Option (List Nat)) (payload : List Nat) :
    (∀ src, handleClose clientSide checkClose 0 src =
      ([⟨8, [], clientSide⟩], some (.closed 1005 []))) ∧
    (2 ≤ payload.length →
      checkClose (payload.getD 0 0 * 256 + payload.getD 1 0) (payload.drop 2) = none →
      handleClose clientSide checkClose payload.length payload =
        ([⟨8, payload.take 2, clientSide⟩],
         some (.closed (payload.getD 0 0 * 256 + payload.getD 1 0) (payload.drop 2)))) ∧
    (∀ msg, 0 < payload.length →
      checkClose (parseCloseFrameData payload).1 (parseCloseFrameData payload).2 =
        some msg →
      handleClose clientSide checkClose payload.length payload =
        ([⟨8, 3 :: 234 :: msg, clientSide⟩], some (.closeCheck msg))) := by
  refine ⟨fun src => rfl, ?_, ?_⟩
  · intro h2 hchk
    have hne : payload.length ≠ 0 := by omega
    have hparse : parseCloseFrameData payload =
        (payload.getD 0 0 * 256 + payload.getD 1 0, payload.drop 2) := by
      simp [parseCloseFrameData, if_neg (by omega : ¬ payload.length < 2)]
    simp only [List.getD, List.get?_eq_getElem?] at hchk
    simp [handleClose, hne, List.take_length, hparse, hchk]
  · intro msg h1 hchk
    have hne : payload.length ≠ 0 := by omega
    simp [handleClose, hne, List.take_length, hchk]

/-- Witness for C9: empty close yields NoStatusReceived; payload
`[3, 232, 104, 105]` parses as code 1000 reason "hi" and round-trips; the
1-byte payload `[7]` fails validation and elicits a ProtocolError close. -/
theorem handleClose_cases_witness :
    (handleClose false (fun c _ => if c = 1000 then none else some [120]) 0 [] =
      ([⟨8, [], false⟩], some (.closed 1005 []))) ∧
    (handleClose false (fun c _ => if c = 1000 then none else some [120]) 4
        [3, 232, 104, 105] =
      ([⟨8, [3, 232], false⟩], some (.closed 1000 [104, 105]))) ∧
    (handleClose false (fun c _ => if c = 1000 then none else some [120]) 1 [7] =
      ([⟨8, [3, 234, 120], false⟩], some (.closeCheck [120]))) := by
  have h := handleClose_cases false
    (fun c _ => if c = 1000 then none else some [120]) [3, 232, 104, 105]
  have h2 := handleClose_cases false
    (fun c _ => if c = 1000 then none else some [120]) [7]
  refine ⟨h.1 [], ?_, ?_⟩
  · have := h.2.1 (by decide) (by norm_num)
    simpa using this
  · have := h2.2.2 [120] (by decide) (by norm_num [parseCloseFrameData])
    simpa using this

end GoNettyWS
